import Mathlib

/- Shallow embedding of scmshell.py: a shell-prompt helper that probes the
   working directory for a Mercurial or Git repository, parses the textual
   output of the status and branch commands, and renders a styled prompt
   fragment.  External command outputs are modelled as explicit string
   parameters; each parser is a pure function of the captured text.
   Dictionary accesses that could raise a KeyError are modelled with Option. -/

def Color.RED : String := "\x1b[31m"

def Color.BLUE : String := "\x1b[34m"

def Color.GREEN : String := "\x1b[32m"

def Color.YELLOW : String := "\x1b[33m"

def Color.RESET : String := "\x1b[37m"

def Style.BRIGHT : String := "\x1b[1m"

def Style.DIM : String := "\x1b[2m"

def Style.NORMAL : String := "\x1b[0m"

/-- Python str.split on the single-character separator, keeping empty pieces. -/
def splitNl : List Char → List (List Char)
  | [] => [[]]
  | '\n' :: rest => [] :: splitNl rest
  | c :: rest =>
    match splitNl rest with
    | l :: ls => (c :: l) :: ls
    | [] => [[c]]

def takeW (p : Char → Bool) : List Char → List Char
  | [] => []
  | c :: rest => if p c then c :: takeW p rest else []

def dropW (p : Char → Bool) : List Char → List Char
  | [] => []
  | c :: rest => if p c then dropW p rest else c :: rest

/-- Does the first list occur at the head of the second one? -/
def beginsW : List Char → List Char → Bool
  | [], _ => true
  | _ :: _, [] => false
  | p :: ps, c :: cs => p == c && beginsW ps cs

/-- Python str.find(needle) > -1, i.e. substring containment. -/
def hasSub (pat : List Char) : List Char → Bool
  | [] => beginsW pat []
  | c :: rest => beginsW pat (c :: rest) || hasSub pat rest

/-- Python str.strip(chars): remove characters satisfying p from both ends. -/
def stripBoth (p : Char → Bool) (l : List Char) : List Char :=
  (dropW p ((dropW p l).reverse)).reverse

def hashSp (c : Char) : Bool := c == '#' || c == ' '

def wsp (c : Char) : Bool :=
  c == ' ' || c == '\t' || c == '\n' || c == '\r' || c == '\x0b' || c == '\x0c'

def isDig (c : Char) : Bool := '0' ≤ c && c ≤ '9'

def isAlnumC (c : Char) : Bool := ('a' ≤ c && c ≤ 'z') || ('A' ≤ c && c ≤ 'Z') || isDig c

def notNl (c : Char) : Bool := !(c == '\n')

/-- Match a literal at the head of a list, returning the remainder on success. -/
def dropLit : List Char → List Char → Option (List Char)
  | [], l => some l
  | _ :: _, [] => Option.none
  | p :: ps, c :: cs => if p == c then dropLit ps cs else Option.none

/-- One attempt, at a fixed position, of the ahead and behind regular
    expressions of GitInfo.getChanges: a literal lead, then one or more
    alphanumerics, then a literal, then one or more digits which form the
    capture, then a literal. -/
def matchFrom (lead l : List Char) : Option String :=
  match dropLit lead l with
  | Option.none => Option.none
  | some r1 =>
    if (takeW isAlnumC r1).isEmpty then Option.none
    else
      match dropLit ("' by ".data) (dropW isAlnumC r1) with
      | Option.none => Option.none
      | some r2 =>
        if (takeW isDig r2).isEmpty then Option.none
        else
          match dropLit (" commit".data) (dropW isDig r2) with
          | Option.none => Option.none
          | some _ => some (String.mk (takeW isDig r2))

/-- Leftmost-position search, as re.search does. -/
def searchWith (lead : List Char) : List Char → Option String
  | [] => Option.none
  | c :: rest =>
    match matchFrom lead (c :: rest) with
    | some r => some r
    | Option.none => searchWith lead rest

def aheadLead : List Char := ("Your branch is ahead of 'origin/").data

def behindLead : List Char := ("Your branch is behind 'origin/").data

def searchA (l : List Char) : Option String := searchWith aheadLead l

def searchB (l : List Char) : Option String := searchWith behindLead l

/-- The section state of the GitInfo.getChanges line scanner. -/
inductive Mode
  | none
  | untracked
  | unstaged
  | uncommitted
deriving DecidableEq

/-- The three section counters of the result dictionary; a field is some
    exactly when the corresponding key is present. -/
structure Counts where
  untracked : Option Nat
  unstaged : Option Nat
  uncommitted : Option Nat
deriving DecidableEq

def getC (r : Counts) : Mode → Option Nat
  | Mode.none => Option.none
  | Mode.untracked => r.untracked
  | Mode.unstaged => r.unstaged
  | Mode.uncommitted => r.uncommitted

def setC (r : Counts) (m : Mode) (v : Nat) : Counts :=
  match m with
  | Mode.none => r
  | Mode.untracked => { r with untracked := some v }
  | Mode.unstaged => { r with unstaged := some v }
  | Mode.uncommitted => { r with uncommitted := some v }

/-- Dictionary increment; a missing key would be a KeyError, modelled as none. -/
def incrC (r : Counts) (m : Mode) : Option Counts :=
  match getC r m with
  | some c => some (setC r m (c + 1))
  | Option.none => Option.none

/-- The regular expression [A_Z] of the source anchored at the start of the
    line: the character class contains the three characters A, underscore, Z. -/
def startsAUZ : List Char → Bool
  | [] => false
  | c :: _ => c == 'A' || c == '_' || c == 'Z'

/-- One line of the GitInfo.getChanges scanner. -/
def procLine (m : Mode) (r : Counts) (raw : List Char) : Option (Mode × Counts) :=
  let line := stripBoth hashSp raw
  if hasSub ("Untracked files:".data) line then some (Mode.untracked, setC r Mode.untracked 0)
  else if hasSub ("Changes not staged for commit:".data) line then some (Mode.unstaged, setC r Mode.unstaged 0)
  else if hasSub ("Changes to be committed:".data) line then some (Mode.uncommitted, setC r Mode.uncommitted 0)
  else if startsAUZ line then some (Mode.none, r)
  else if decide (line.length > 0) && !hasSub ("(use \"git".data) line && decide (m ≠ Mode.none) then
    match incrC r m with
    | some r2 => some (m, r2)
    | Option.none => Option.none
  else some (m, r)

def scan : Mode → Counts → List (List Char) → Option (Mode × Counts)
  | m, r, [] => some (m, r)
  | m, r, l :: rest =>
    match procLine m r l with
    | some st => scan st.1 st.2 rest
    | Option.none => Option.none

/-- The normalized change summary: section counts as naturals, the ahead and
    behind values preserved as the captured digit text. -/
structure Changes where
  untracked : Option Nat
  unstaged : Option Nat
  uncommitted : Option Nat
  behind : Option String
  ahead : Option String
deriving DecidableEq

def GitInfo.getChanges (output : String) : Option Changes :=
  match scan Mode.none ⟨Option.none, Option.none, Option.none⟩ (splitNl output.data) with
  | some st =>
    some { untracked := st.2.untracked, unstaged := st.2.unstaged,
           uncommitted := st.2.uncommitted,
           behind := searchB output.data, ahead := searchA output.data }
  | Option.none => Option.none

def headSp : List Char → Bool
  | [] => false
  | c :: _ => c == ' '

/-- re.search of the pattern asterisk, space, capture-rest-of-line. -/
def searchStar : List Char → Option String
  | [] => Option.none
  | c :: rest =>
    if c == '*' && headSp rest then some (String.mk (takeW notNl rest.tail))
    else searchStar rest

def GitInfo.getCurrentBranch (output : String) : Option String :=
  if output.length > 0 then searchStar output.data else Option.none

def GitInfo.isCorrect (out : String) : Bool :=
  decide (out.length > 0) && !(decide (out.data.take 5 = "fatal".data))

def HgInfo.isCorrect (out : String) : Bool :=
  decide (out.length ≤ 0) || !(decide (out.data.take 5 = "abort".data))

def HgInfo.getCurrentBranch (out : String) : String := String.mk (stripBoth wsp out.data)

/-- One line of HgInfo.getChanges: a non-empty line bumps the untracked
    counter when it starts with a question mark and the uncommitted counter
    when it starts with M, creating the key with value zero first when absent. -/
def hgStep (r : Changes) (line : List Char) : Option Changes :=
  match line with
  | [] => some r
  | c :: _ =>
    let step1 : Option Changes :=
      if c == '?' then
        let r' := if r.untracked = Option.none then { r with untracked := some 0 } else r
        match r'.untracked with
        | some n => some { r' with untracked := some (n + 1) }
        | Option.none => Option.none
      else some r
    match step1 with
    | Option.none => Option.none
    | some r1 =>
      if c == 'M' then
        let r' := if r1.uncommitted = Option.none then { r1 with uncommitted := some 0 } else r1
        match r'.uncommitted with
        | some n => some { r' with uncommitted := some (n + 1) }
        | Option.none => Option.none
      else some r1

def hgScan : Changes → List (List Char) → Option Changes
  | r, [] => some r
  | r, l :: rest =>
    match hgStep r l with
    | some r2 => hgScan r2 rest
    | Option.none => Option.none

def HgInfo.getChanges (output : String) : Option Changes :=
  hgScan ⟨Option.none, Option.none, Option.none, Option.none, Option.none⟩ (splitNl output.data)

/-- Python string interpolation of a possibly absent value: None prints as
    the four characters None. -/
def pyFormat : Option String → String
  | Option.none => "None"
  | some s => s

def natStr (n : Nat) : String := toString n

/-- Python dictionary truthiness: a dictionary is truthy when some key exists. -/
def chNonempty (ch : Changes) : Bool :=
  ch.untracked.isSome || ch.unstaged.isSome || ch.uncommitted.isSome || ch.behind.isSome || ch.ahead.isSome

def AbstractDistributedInfo.getSCMInfo (name : String) (branch : Option String) (ch : Changes) : String :=
  let base := Color.YELLOW ++ "(" ++ name ++ ":" ++ pyFormat branch
  let withFrags :=
    if chNonempty ch then
      let r1 := match ch.behind with
        | some t => base ++ Style.DIM ++ ",origin" ++ "►" ++ t
        | Option.none => base
      let r2 := match ch.ahead with
        | some t => r1 ++ Style.DIM ++ ",origin" ++ "◄" ++ t
        | Option.none => r1
      let r3 := match ch.untracked with
        | some n => r2 ++ Style.DIM ++ ",untracked:" ++ natStr n
        | Option.none => r2
      let r4 := match ch.unstaged with
        | some n => r3 ++ Style.DIM ++ ",unstaged:" ++ natStr n
        | Option.none => r3
      match ch.uncommitted with
        | some n => r4 ++ Style.DIM ++ ",uncommitted:" ++ natStr n
        | Option.none => r4
    else base
  withFrags ++ Style.BRIGHT ++ ")"

/-- The change categories in the fixed rendering order stated by the spec. -/
inductive Cat
  | behind
  | ahead
  | untracked
  | unstaged
  | uncommitted

def catOrder : List Cat := [Cat.behind, Cat.ahead, Cat.untracked, Cat.unstaged, Cat.uncommitted]

/-- The rendered fragment of one category, present exactly when the category
    is present in the change summary. -/
def catFrag (ch : Changes) : Cat → Option String
  | Cat.behind => ch.behind.map (fun t => Style.DIM ++ ",origin" ++ "►" ++ t)
  | Cat.ahead => ch.ahead.map (fun t => Style.DIM ++ ",origin" ++ "◄" ++ t)
  | Cat.untracked => ch.untracked.map (fun n => Style.DIM ++ ",untracked:" ++ natStr n)
  | Cat.unstaged => ch.unstaged.map (fun n => Style.DIM ++ ",unstaged:" ++ natStr n)
  | Cat.uncommitted => ch.uncommitted.map (fun n => Style.DIM ++ ",uncommitted:" ++ natStr n)

def joinStr : List String → String
  | [] => ""
  | s :: rest => s ++ joinStr rest

/-- The VCS line as the spec words it: the open parenthesis, name and branch,
    then one fragment per present category in the fixed order, then the close. -/
def specVcsLine (name : String) (branch : Option String) (ch : Changes) : String :=
  Color.YELLOW ++ "(" ++ name ++ ":" ++ pyFormat branch ++
    joinStr (catOrder.filterMap (catFrag ch)) ++ Style.BRIGHT ++ ")"

inductive Backend
  | hg
  | git
deriving DecidableEq

/-- The captured outputs of the four external commands the tool may run. -/
structure Env where
  hgStatus : String
  gitStatus : String
  hgBranch : String
  gitBranch : String

/-- InfoFactory.getInfoClass: probe Mercurial first, then Git. -/
def getInfoClass (e : Env) : Option Backend :=
  if HgInfo.isCorrect e.hgStatus then some Backend.hg
  else if GitInfo.isCorrect e.gitStatus then some Backend.git
  else Option.none

def getUserInfo (user : String) : String :=
  Style.BRIGHT ++ (if user = "root" then Color.RED else Color.GREEN) ++ user

def getDirectoryInfo (cwd : String) : String := Color.BLUE ++ cwd

def userLine (user host cwd : String) : String :=
  getUserInfo user ++ Style.DIM ++ "@" ++ host ++ ":" ++ Style.BRIGHT ++
    getDirectoryInfo cwd ++ Style.NORMAL ++ Color.RESET

/-- Top-level getSCMInfo: the empty string when no backend probe succeeds. -/
def topSCM (e : Env) : Option String :=
  match getInfoClass e with
  | Option.none => some ""
  | some Backend.hg =>
    match HgInfo.getChanges e.hgStatus with
    | some ch => some (AbstractDistributedInfo.getSCMInfo "hg" (some (HgInfo.getCurrentBranch e.hgBranch)) ch)
    | Option.none => Option.none
  | some Backend.git =>
    match GitInfo.getChanges e.gitStatus with
    | some ch => some (AbstractDistributedInfo.getSCMInfo "git" (GitInfo.getCurrentBranch e.gitBranch) ch)
    | Option.none => Option.none

/-- The lines printed by the main block: a blank separator, the user line,
    and the VCS line only when the SCM info string is non-empty. -/
def mainLines (e : Env) (user host cwd : String) : Option (List String) :=
  match topSCM e with
  | some s =>
    if s.length > 0 then
      some [" ", userLine user host cwd, Style.BRIGHT ++ s ++ Style.NORMAL ++ Color.RESET]
    else some [" ", userLine user host cwd]
  | Option.none => Option.none

/- Helper lemmas shared by several developments below. -/

theorem strExt {s t : String} (h : s.data = t.data) : s = t := by
  cases s
  cases t
  cases h
  rfl

theorem dataApp (a b : String) : (a ++ b).data = a.data ++ b.data := by
  cases a
  cases b
  rfl

theorem dataNil : ("" : String).data = [] := rfl

theorem strLenData (s : String) : s.length = s.data.length := rfl

/-- Claim C1: the code behavior at the failing input.  The line consisting of
    the words Branch info starts with an uppercase letter and is none of the
    three recognized section headers, yet it does not reset the section to
    none: the source regular expression [A_Z] matches only the characters A,
    underscore and Z, so both that line and the following one are counted and
    the untracked count is 3 rather than the 1 the claim predicts. -/
theorem c1_sectionReset_codeBehavior :
    GitInfo.getChanges "Untracked files:\nfoo\nBranch info\nbar" =
      some ⟨some 3, Option.none, Option.none, Option.none, Option.none⟩ ∧
    startsAUZ ("Branch info".data) = false ∧ ('B').isUpper = true := by
  refine ⟨by decide, by decide, by decide⟩

/-- Claim C2, counterexample: a Git status text consisting of only the
    untracked header yields a summary in which the untracked category is
    present with count zero, refuting that no category is ever reported with
    a count of zero. -/
theorem c2_zeroCount_counterexample :
    GitInfo.getChanges "Untracked files:" =
      some ⟨some 0, Option.none, Option.none, Option.none, Option.none⟩ := by
  decide

/-- Claim C5, counterexample: this two-line output has exactly one line that
    starts with the asterisk-space-feature-x text, yet the extractor returns
    the capture of the earlier in-line asterisk-space occurrence, b. -/
theorem c5_branch_counterexample :
    (splitNl ("a * b\n* feature-x").data).countP (fun l => beginsW ("* feature-x".data) l) = 1 ∧
    GitInfo.getCurrentBranch "a * b\n* feature-x" = some "b" := by
  refine ⟨by decide, by decide⟩

/-- Claim C7, counterexample: this status text contains the claimed substring
    about origin slash main and 3 commits, yet the extractor populates ahead
    with 7, the capture of the leftmost match of the pattern. -/
theorem c7_ahead_counterexample :
    hasSub ("Your branch is ahead of 'origin/main' by 3 commits".data)
        ("Your branch is ahead of 'origin/dev' by 7 commits. Your branch is ahead of 'origin/main' by 3 commits").data = true ∧
    GitInfo.getChanges "Your branch is ahead of 'origin/dev' by 7 commits. Your branch is ahead of 'origin/main' by 3 commits" =
      some ⟨Option.none, Option.none, Option.none, Option.none, some "7"⟩ := by
  refine ⟨by decide, by decide⟩

/-- The claim's counting notion: one per non-empty line whose first character
    is the given one. -/
def cntHead (ch : Char) : List (List Char) → Nat
  | [] => 0
  | [] :: rest => cntHead ch rest
  | (c :: _) :: rest => (if c == ch then 1 else 0) + cntHead ch rest

/-- Applying k create-or-increment steps to a possibly missing counter. -/
def bump (o : Option Nat) (k : Nat) : Option Nat :=
  match o with
  | Option.none => if k = 0 then Option.none else some k
  | some m => some (m + k)

/-- One create-or-increment step. -/
def tick : Option Nat → Option Nat
  | Option.none => some 1
  | some n => some (n + 1)

theorem bump_zero (o : Option Nat) : bump o 0 = o := by
  cases o <;> simp [bump]

theorem bump_tick (o : Option Nat) (k : Nat) : bump (tick o) k = bump o (k + 1) := by
  cases o <;> simp [bump, tick, Nat.add_comm, Nat.add_assoc, Nat.add_left_comm]

theorem hgStep_nil (r : Changes) : hgStep r [] = some r := rfl

theorem hgStep_q (r : Changes) (xs : List Char) :
    hgStep r ('?' :: xs) = some { r with untracked := tick r.untracked } := by
  obtain ⟨u, s, c, b, a⟩ := r
  cases u <;> simp [hgStep, tick]

theorem hgStep_m (r : Changes) (xs : List Char) :
    hgStep r ('M' :: xs) = some { r with uncommitted := tick r.uncommitted } := by
  obtain ⟨u, s, c, b, a⟩ := r
  cases c <;> simp [hgStep, tick]

theorem hgStep_other (r : Changes) (c : Char) (xs : List Char)
    (h1 : c ≠ '?') (h2 : c ≠ 'M') : hgStep r (c :: xs) = some r := by
  simp [hgStep, h1, h2]

theorem hgScan_eq (ls : List (List Char)) : ∀ r : Changes,
    hgScan r ls = some { r with untracked := bump r.untracked (cntHead '?' ls),
                                uncommitted := bump r.uncommitted (cntHead 'M' ls) } := by
  induction ls with
  | nil => intro r; simp [hgScan, cntHead, bump_zero]
  | cons l rest ih =>
    intro r
    cases l with
    | nil => simp [hgScan, hgStep_nil, cntHead, ih]
    | cons c xs =>
      by_cases hq : c = '?'
      · subst hq
        simp [hgScan, hgStep_q, cntHead, ih, bump_tick, Nat.add_comm]
      · by_cases hm : c = 'M'
        · subst hm
          simp [hgScan, hgStep_m, cntHead, ih, bump_tick, Nat.add_comm]
        · simp [hgScan, hgStep_other r c xs hq hm, cntHead, ih, hq, hm]

/-- Claim C8: for every status text the Mercurial extractor reports, for each
    of the two categories, exactly the number of non-empty lines whose first
    character is the question mark respectively M, with the category absent
    when that number is zero; in particular the two-line example yields one
    untracked and one uncommitted. -/
theorem c8_hgChanges_counts (out : String) :
    HgInfo.getChanges out =
      some ⟨(if cntHead '?' (splitNl out.data) = 0 then Option.none
             else some (cntHead '?' (splitNl out.data))),
            Option.none,
            (if cntHead 'M' (splitNl out.data) = 0 then Option.none
             else some (cntHead 'M' (splitNl out.data))),
            Option.none, Option.none⟩ ∧
    HgInfo.getChanges "? a.txt\nM b.txt" =
      some ⟨some 1, Option.none, some 1, Option.none, Option.none⟩ := by
  constructor
  · show hgScan ⟨Option.none, Option.none, Option.none, Option.none, Option.none⟩ _ = _
    rw [hgScan_eq]
    rfl
  · decide

theorem getC_setC_self (r : Counts) (m : Mode) (v : Nat) (h : m ≠ Mode.none) :
    getC (setC r m v) m = some v := by
  cases m
  · exact absurd rfl h
  all_goals rfl

/-- The scanner invariant: outside the none section the current section's
    counter key is present, so the dictionary increment cannot fail. -/
theorem procLine_some (m : Mode) (r : Counts) (raw : List Char)
    (hInv : m = Mode.none ∨ (getC r m).isSome = true) :
    ∃ m2 r2, procLine m r raw = some (m2, r2) ∧
      (m2 = Mode.none ∨ (getC r2 m2).isSome = true) := by
  unfold procLine
  by_cases h1 : hasSub ("Untracked files:".data) (stripBoth hashSp raw)
  · refine ⟨Mode.untracked, setC r Mode.untracked 0, by simp [h1], Or.inr rfl⟩
  by_cases h2 : hasSub ("Changes not staged for commit:".data) (stripBoth hashSp raw)
  · refine ⟨Mode.unstaged, setC r Mode.unstaged 0, by simp [h1, h2], Or.inr rfl⟩
  by_cases h3 : hasSub ("Changes to be committed:".data) (stripBoth hashSp raw)
  · refine ⟨Mode.uncommitted, setC r Mode.uncommitted 0, by simp [h1, h2, h3], Or.inr rfl⟩
  by_cases h4 : startsAUZ (stripBoth hashSp raw)
  · exact ⟨Mode.none, r, by simp [h1, h2, h3, h4], Or.inl rfl⟩
  by_cases h5 : (decide ((stripBoth hashSp raw).length > 0) &&
      !hasSub ("(use \"git".data) (stripBoth hashSp raw) && decide (m ≠ Mode.none)) = true
  · have hm : m ≠ Mode.none := by
      have := h5
      simp only [Bool.and_eq_true, decide_eq_true_eq] at this
      exact this.2
    have hsome : (getC r m).isSome = true := by
      rcases hInv with h | h
      · exact absurd h hm
      · exact h
    rcases hg : getC r m with _ | cc
    · rw [hg] at hsome
      simp at hsome
    · refine ⟨m, setC r m (cc + 1), ?_, Or.inr ?_⟩
      · simp only [h1, h2, h3, h4, h5, if_true, if_false, Bool.false_eq_true, incrC, hg]
      · rw [getC_setC_self r m (cc + 1) hm]
        rfl
  · refine ⟨m, r, ?_, hInv⟩
    simp only [if_neg h1, if_neg h2, if_neg h3, if_neg h4, if_neg h5]

theorem scan_some (ls : List (List Char)) : ∀ (m : Mode) (r : Counts),
    (m = Mode.none ∨ (getC r m).isSome = true) → (scan m r ls).isSome = true := by
  induction ls with
  | nil => intro m r _; rfl
  | cons l rest ih =>
    intro m r hInv
    obtain ⟨m2, r2, hpl, hInv2⟩ := procLine_some m r l hInv
    simp [scan, hpl]
    exact ih m2 r2 hInv2

/-- Claim C9: both change extractors are total on every status text: the Git
    section machine keeps the current section's counter present whenever the
    section is not none, so no dictionary access fails, and the Mercurial
    scanner creates a key before each increment. -/
theorem c9_parsers_noException (out : String) :
    (GitInfo.getChanges out).isSome = true ∧ (HgInfo.getChanges out).isSome = true := by
  constructor
  · unfold GitInfo.getChanges
    have h := scan_some (splitNl out.data) Mode.none ⟨Option.none, Option.none, Option.none⟩ (Or.inl rfl)
    rcases hs : scan Mode.none ⟨Option.none, Option.none, Option.none⟩ (splitNl out.data) with _ | st
    · rw [hs] at h
      simp at h
    · rfl
  · show (hgScan ⟨Option.none, Option.none, Option.none, Option.none, Option.none⟩ _).isSome = true
    rw [hgScan_eq]
    rfl

theorem beginsW_iff_take : ∀ pat l : List Char, beginsW pat l = true ↔ l.take pat.length = pat := by
  intro pat
  induction pat with
  | nil => intro l; simp [beginsW]
  | cons p ps ih =>
    intro l
    cases l with
    | nil => simp [beginsW]
    | cons c cs =>
      constructor
      · intro h
        simp only [beginsW, Bool.and_eq_true, beq_iff_eq] at h
        obtain ⟨hpc, hps⟩ := h
        subst hpc
        simp only [List.length_cons, List.take_succ_cons, List.cons.injEq]
        exact ⟨trivial, (ih cs).mp hps⟩
      · intro h
        simp only [List.length_cons, List.take_succ_cons, List.cons.injEq] at h
        obtain ⟨hc, hps⟩ := h
        simp only [beginsW, Bool.and_eq_true, beq_iff_eq]
        exact ⟨hc.symm, (ih cs).mpr hps⟩

theorem strLenZero (s : String) : s.length ≤ 0 ↔ s = "" := by
  constructor
  · intro h
    apply strExt
    have h0 : s.data.length = 0 := Nat.le_zero.mp h
    simpa using List.length_eq_zero.mp h0
  · intro h
    subst h
    decide

/-- Claim C4: the Mercurial probe succeeds exactly when the captured output is
    empty or does not begin with the five characters of the word abort; in
    particular it still succeeds on a non-empty failure message that starts
    differently. -/
theorem c4_hgProbe (out : String) :
    (HgInfo.isCorrect out = true ↔ (out = "" ∨ beginsW ("abort".data) out.data = false)) ∧
    (HgInfo.isCorrect "hg: command failed" = true ∧ ("hg: command failed" : String) ≠ "" ∧
      beginsW ("abort".data) ("hg: command failed".data) = false) := by
  have hlen : ("abort".data).length = 5 := by decide
  refine ⟨?_, by decide, by decide, by decide⟩
  constructor
  · intro h
    unfold HgInfo.isCorrect at h
    simp only [Bool.or_eq_true, decide_eq_true_eq, Bool.not_eq_true', decide_eq_false_iff_not] at h
    rcases h with h | h
    · exact Or.inl ((strLenZero out).mp h)
    · right
      rw [Bool.eq_false_iff]
      intro hb
      apply h
      have ht := (beginsW_iff_take ("abort".data) out.data).mp hb
      rw [hlen] at ht
      exact ht
  · intro h
    unfold HgInfo.isCorrect
    simp only [Bool.or_eq_true, decide_eq_true_eq, Bool.not_eq_true', decide_eq_false_iff_not]
    rcases h with h | h
    · subst h
      exact Or.inl (by decide)
    · right
      intro ht
      have hb := (beginsW_iff_take ("abort".data) out.data).mpr (by rw [hlen]; exact ht)
      rw [h] at hb
      cases hb

/-- Witness for claim C4 at a concrete non-empty failure-looking output. -/
theorem c4_hgProbe_witness :
    ("hg: command failed" : String) = "" ∨
      beginsW ("abort".data) ("hg: command failed" : String).data = false :=
  (c4_hgProbe "hg: command failed").1.mp (by decide)

/-- Claim C3: the detector probes Mercurial first and Git second, returning
    the first success; when both probes fail it returns no backend and the
    program prints only the blank separator and the user, host and directory
    line. -/
theorem c3_detector (e : Env) (user host cwd : String) :
    (HgInfo.isCorrect e.hgStatus = true → getInfoClass e = some Backend.hg) ∧
    (HgInfo.isCorrect e.hgStatus = false → GitInfo.isCorrect e.gitStatus = true →
      getInfoClass e = some Backend.git) ∧
    (HgInfo.isCorrect e.hgStatus = false → GitInfo.isCorrect e.gitStatus = false →
      getInfoClass e = Option.none ∧
        mainLines e user host cwd = some [" ", userLine user host cwd]) := by
  refine ⟨?_, ?_, ?_⟩
  · intro h
    simp [getInfoClass, h]
  · intro h1 h2
    simp [getInfoClass, h1, h2]
  · intro h1 h2
    have hg : getInfoClass e = Option.none := by simp [getInfoClass, h1, h2]
    refine ⟨hg, ?_⟩
    simp [mainLines, topSCM, hg]

def env0 : Env := ⟨"abort: no repository", "fatal: Not a git repository", "", ""⟩

/-- Witness for claim C3: with an aborting hg status and a fatal git status
    neither probe succeeds, no backend is selected and only two lines print. -/
theorem c3_detector_witness :
    getInfoClass env0 = Option.none ∧
    mainLines env0 "alice" "devbox" "/home/alice" =
      some [" ", userLine "alice" "devbox" "/home/alice"] :=
  (c3_detector env0 "alice" "devbox" "/home/alice").2.2 (by decide) (by decide)

theorem getSCMInfo_eq_spec (n : String) (b : Option String) (ch : Changes) :
    AbstractDistributedInfo.getSCMInfo n b ch = specVcsLine n b ch := by
  obtain ⟨u, s, c, bh, ah⟩ := ch
  rcases u with _ | u <;> rcases s with _ | s <;> rcases c with _ | c <;>
    rcases bh with _ | bh <;> rcases ah with _ | ah <;>
    (apply strExt
     simp [AbstractDistributedInfo.getSCMInfo, specVcsLine, chNonempty, catFrag,
           catOrder, joinStr, List.filterMap, dataApp, dataNil, List.append_assoc, pyFormat])

/-- Claim C6: the rendered VCS line is the open parenthesis with the backend
    name and branch, then for exactly the categories present in the change
    summary, in the fixed order behind, ahead, untracked, unstaged,
    uncommitted, the corresponding dimmed fragment, then the bright close. -/
theorem c6_renderFormat (name : String) (branch : Option String) (ch : Changes) :
    AbstractDistributedInfo.getSCMInfo name branch ch = specVcsLine name branch ch :=
  getSCMInfo_eq_spec name branch ch

/-- Claim C10: when the Git branch extractor finds no asterisk-space match the
    rendered line carries the literal text None in the branch position. -/
theorem c10_noneBranch (bout : String) (ch : Changes)
    (h : GitInfo.getCurrentBranch bout = Option.none) :
    AbstractDistributedInfo.getSCMInfo "git" (GitInfo.getCurrentBranch bout) ch =
      Color.YELLOW ++ "(" ++ "git" ++ ":" ++ "None" ++
        joinStr (catOrder.filterMap (catFrag ch)) ++ Style.BRIGHT ++ ")" := by
  rw [getSCMInfo_eq_spec, h]
  rfl

/-- Witness for claim C10 at a branch output with no asterisk line. -/
theorem c10_noneBranch_witness :
    AbstractDistributedInfo.getSCMInfo "git" (GitInfo.getCurrentBranch "  main\n  dev")
        ⟨Option.none, Option.none, Option.none, Option.none, Option.none⟩ =
      Color.YELLOW ++ "(" ++ "git" ++ ":" ++ "None" ++
        joinStr (catOrder.filterMap
          (catFrag ⟨Option.none, Option.none, Option.none, Option.none, Option.none⟩)) ++
        Style.BRIGHT ++ ")" :=
  c10_noneBranch "  main\n  dev"
    ⟨Option.none, Option.none, Option.none, Option.none, Option.none⟩ (by decide)

theorem takeW_mem (p : Char → Bool) : ∀ (l : List Char) (c : Char), c ∈ takeW p l → p c = true := by
  intro l
  induction l with
  | nil => intro c h; simp [takeW] at h
  | cons a as ih =>
    intro c h
    by_cases hp : p a = true
    · rw [takeW, if_pos hp] at h
      rcases List.mem_cons.mp h with h | h
      · rwa [h]
      · exact ih c h
    · rw [takeW, if_neg hp] at h
      cases h

theorem matchFrom_digits (lead l : List Char) (t : String) (h : matchFrom lead l = some t) :
    t.data ≠ [] ∧ ∀ c ∈ t.data, isDig c = true := by
  unfold matchFrom at h
  rcases h1 : dropLit lead l with _ | r1 <;> simp only [h1] at h
  · cases h
  · by_cases he : (takeW isAlnumC r1).isEmpty = true
    · rw [if_pos he] at h
      cases h
    · rw [if_neg he] at h
      rcases h2 : dropLit ("' by ".data) (dropW isAlnumC r1) with _ | r2 <;> simp only [h2] at h
      · cases h
      · by_cases hd : (takeW isDig r2).isEmpty = true
        · rw [if_pos hd] at h
          cases h
        · rw [if_neg hd] at h
          rcases h3 : dropLit (" commit".data) (dropW isDig r2) with _ | r3 <;> simp only [h3] at h
          · cases h
          · obtain rfl : String.mk (takeW isDig r2) = t := Option.some.inj h
            refine ⟨?_, ?_⟩
            · show takeW isDig r2 ≠ []
              intro hnil
              rw [hnil] at hd
              exact hd rfl
            · intro c hc
              exact takeW_mem isDig r2 c hc

theorem searchWith_digits (lead : List Char) : ∀ (l : List Char) (t : String),
    searchWith lead l = some t → t.data ≠ [] ∧ ∀ c ∈ t.data, isDig c = true := by
  intro l
  induction l with
  | nil => intro t h; cases h
  | cons c rest ih =>
    intro t h
    rcases hm : matchFrom lead (c :: rest) with _ | r <;> simp only [searchWith, hm] at h
    · exact ih t h
    · obtain rfl : r = t := Option.some.inj h
      exact matchFrom_digits lead (c :: rest) _ hm

theorem bump_none_ne_zero (k : Nat) : bump Option.none k ≠ some 0 := by
  cases k with
  | zero => simp [bump]
  | succ n => simp [bump]

/-- Claim C2 as amended: all reported counts are non-negative, the Mercurial
    extractor never reports a zero count, and the Git ahead and behind values
    are always non-empty digit strings, hence denote non-negative integers;
    the Git extractor may however report a section category with count zero
    when a section header appears with no countable line after it. -/
theorem c2_amended_counts (s : String) :
    (∀ r, HgInfo.getChanges s = some r → r.untracked ≠ some 0 ∧ r.uncommitted ≠ some 0) ∧
    (∀ r t, GitInfo.getChanges s = some r → r.ahead = some t →
      t.data ≠ [] ∧ ∀ c ∈ t.data, isDig c = true) ∧
    (∀ r t, GitInfo.getChanges s = some r → r.behind = some t →
      t.data ≠ [] ∧ ∀ c ∈ t.data, isDig c = true) := by
  refine ⟨?_, ?_, ?_⟩
  · intro r hr
    unfold HgInfo.getChanges at hr
    rw [hgScan_eq] at hr
    obtain rfl := (Option.some.inj hr).symm
    exact ⟨bump_none_ne_zero _, bump_none_ne_zero _⟩
  · intro r t hr hah
    unfold GitInfo.getChanges at hr
    rcases hsc : scan Mode.none ⟨Option.none, Option.none, Option.none⟩ (splitNl s.data)
        with _ | st <;> simp only [hsc] at hr
    · cases hr
    · obtain rfl := (Option.some.inj hr).symm
      exact searchWith_digits aheadLead s.data t hah
  · intro r t hr hbh
    unfold GitInfo.getChanges at hr
    rcases hsc : scan Mode.none ⟨Option.none, Option.none, Option.none⟩ (splitNl s.data)
        with _ | st <;> simp only [hsc] at hr
    · cases hr
    · obtain rfl := (Option.some.inj hr).symm
      exact searchWith_digits behindLead s.data t hbh

/-- Witness for claim C2 as amended, at a Mercurial status with one untracked
    and one modified file and at a Git status that is ahead by three. -/
theorem c2_amended_witness :
    ((⟨some 1, Option.none, some 1, Option.none, Option.none⟩ : Changes).untracked ≠ some 0) ∧
    (("3" : String).data ≠ [] ∧ ∀ c ∈ ("3" : String).data, isDig c = true) :=
  ⟨((c2_amended_counts "? a\nM b").1
      ⟨some 1, Option.none, some 1, Option.none, Option.none⟩ (by decide)).1,
   (c2_amended_counts "Your branch is ahead of 'origin/main' by 3 commits").2.1
      ⟨Option.none, Option.none, Option.none, Option.none, some "3"⟩ "3" (by decide) rfl⟩

theorem searchStar_hit (xs : List Char) :
    searchStar ('*' :: ' ' :: xs) = some (String.mk (takeW notNl xs)) := rfl

theorem searchStar_cons (c : Char) (xs : List Char) :
    searchStar (c :: xs) =
      if c == '*' && headSp xs then some (String.mk (takeW notNl xs.tail))
      else searchStar xs := rfl

theorem starGuard_false (c : Char) (rest t : List Char)
    (hb : beginsW ['*', ' '] (c :: rest) = false) (h2 : headSp t = false) :
    (c == '*' && headSp (rest ++ t)) = false := by
  by_cases hc : c = '*'
  · subst hc
    cases rest with
    | nil => simpa using h2
    | cons r0 rr =>
      have hr0 : ¬(r0 = ' ') := by
        intro e
        subst e
        simp [beginsW] at hb
      simp [headSp, hr0]
  · simp [hc]

theorem searchStar_skip : ∀ l t : List Char, hasSub ['*', ' '] l = false →
    headSp t = false → searchStar (l ++ t) = searchStar t := by
  intro l
  induction l with
  | nil => intro t _ _; rfl
  | cons c rest ih =>
    intro t h1 h2
    rw [hasSub] at h1
    obtain ⟨hb, hr⟩ := Bool.or_eq_false_iff.mp h1
    have hguard := starGuard_false c rest t hb h2
    have hng : ¬((c == '*' && headSp (rest ++ t)) = true) := by
      rw [hguard]
      exact Bool.false_ne_true
    rw [List.cons_append, searchStar_cons, if_neg hng]
    exact ih t hr h2

theorem searchStar_none : ∀ l : List Char, hasSub ['*', ' '] l = false →
    searchStar l = Option.none := by
  intro l
  induction l with
  | nil => intro _; rfl
  | cons c rest ih =>
    intro h1
    rw [hasSub] at h1
    obtain ⟨hb, hr⟩ := Bool.or_eq_false_iff.mp h1
    have hguard := starGuard_false c rest [] hb rfl
    rw [List.append_nil] at hguard
    have hng : ¬((c == '*' && headSp rest) = true) := by
      rw [hguard]
      exact Bool.false_ne_true
    rw [searchStar_cons, if_neg hng]
    exact ih hr

theorem takeW_fx (t : List Char) (h : t = [] ∨ t.head? = some '\n') :
    takeW notNl (("feature-x").data ++ t) = ("feature-x").data := by
  rcases h with rfl | h
  · decide
  · cases t with
    | nil => simp at h
    | cons c0 tt =>
      obtain rfl : c0 = '\n' := by simpa using h
      rfl

/-- Claim C5 as amended: the Git branch extractor searches the whole output
    for the leftmost asterisk-space occurrence and returns the remainder of
    that line, so it returns the feature branch name whenever no
    asterisk-space occurs before that line; and on any output with no
    asterisk-space occurrence at all it returns an absent value, not an
    error. -/
theorem c5_amended_branch (pre suf : String)
    (h1 : hasSub ['*', ' '] pre.data = false)
    (h2 : suf = "" ∨ suf.data.head? = some '\n') :
    GitInfo.getCurrentBranch (pre ++ "* feature-x" ++ suf) = some "feature-x" ∧
    (∀ out : String, hasSub ['*', ' '] out.data = false →
      GitInfo.getCurrentBranch out = Option.none) := by
  constructor
  · have edata : (pre ++ "* feature-x" ++ suf).data
        = pre.data ++ ('*' :: ' ' :: (("feature-x").data ++ suf.data)) := by
      rw [dataApp, dataApp, List.append_assoc]
      rfl
    have hlen : (pre ++ "* feature-x" ++ suf).length > 0 := by
      rw [strLenData, edata, List.length_append]
      simp [List.length_cons]
    have h2' : suf.data = [] ∨ suf.data.head? = some '\n' := by
      rcases h2 with rfl | h
      · exact Or.inl rfl
      · exact Or.inr h
    unfold GitInfo.getCurrentBranch
    rw [if_pos hlen, edata,
        searchStar_skip pre.data ('*' :: ' ' :: (("feature-x").data ++ suf.data)) h1 rfl,
        searchStar_hit, takeW_fx suf.data h2']
  · intro out h
    unfold GitInfo.getCurrentBranch
    by_cases hl : out.length > 0
    · rw [if_pos hl]
      exact searchStar_none out.data h
    · rw [if_neg hl]

/-- Witness for claim C5 as amended: a branch listing with a plain line before
    the asterisk line, and an asterisk-free listing. -/
theorem c5_amended_branch_witness :
    GitInfo.getCurrentBranch ("  main\n" ++ "* feature-x" ++ "\n  dev") = some "feature-x" ∧
    GitInfo.getCurrentBranch "  main\n  dev" = Option.none :=
  ⟨(c5_amended_branch "  main\n" "\n  dev" (by decide) (Or.inr (by decide))).1,
   (c5_amended_branch "  main\n" "\n  dev" (by decide) (Or.inr (by decide))).2
     "  main\n  dev" (by decide)⟩

theorem searchWith_skip_noMatch (lead : List Char) :
    ∀ l t : List Char,
      (∀ p1 p2 : List Char, l = p1 ++ p2 → p2 ≠ [] →
        matchFrom lead (p2 ++ t) = Option.none) →
      searchWith lead (l ++ t) = searchWith lead t := by
  intro l
  induction l with
  | nil => intro t _; rfl
  | cons c ps ih =>
    intro t hno
    have hc : matchFrom lead (c :: (ps ++ t)) = Option.none := by
      have h0 := hno [] (c :: ps) rfl (by simp)
      rwa [List.cons_append] at h0
    rw [List.cons_append, searchWith, hc]
    exact ih t (fun p1 p2 h hne => hno (c :: p1) p2 (by rw [List.cons_append, ← h]) hne)

theorem splitThree (a b c : Char) (p1 p2 : List Char)
    (h : [a, b, c] = p1 ++ p2) (hne : p2 ≠ []) :
    p2 = [a, b, c] ∨ p2 = [b, c] ∨ p2 = [c] := by
  rcases p1 with _ | ⟨x, p1⟩
  · left
    simpa using h.symm
  rcases p1 with _ | ⟨y, p1⟩
  · right; left
    injection h with h1 h2
    exact h2.symm
  rcases p1 with _ | ⟨z, p1⟩
  · right; right
    injection h with h1 h2
    injection h2 with h3 h4
    exact h4.symm
  · exfalso
    injection h with h1 h2
    injection h2 with h3 h4
    injection h4 with h5 h6
    exact hne (List.append_eq_nil.mp h6.symm).2

theorem searchWith_target_ahead (x : List Char) :
    searchWith aheadLead (("Your branch is ahead of 'origin/main' by 3 commits").data ++ x) =
      some "3" := rfl

theorem searchWith_target_behind (x : List Char) :
    searchWith behindLead (("Your branch is behind 'origin/main' by 3 commits").data ++ x) =
      some "3" := rfl

/-- Claim C7 as amended: the ahead and behind counts come from the leftmost
    match of the corresponding pattern in the whole status text, preserved as
    displayed text: whenever no match of the pattern starts strictly before
    the given sentence, the ahead respectively behind category holds the
    string 3. -/
theorem c7_amended_aheadBehind (pre suf : String)
    (hA : ∀ p1 p2 : List Char, pre.data = p1 ++ p2 → p2 ≠ [] →
      matchFrom aheadLead
        (p2 ++ (("Your branch is ahead of 'origin/main' by 3 commits").data ++ suf.data)) =
        Option.none)
    (hB : ∀ p1 p2 : List Char, pre.data = p1 ++ p2 → p2 ≠ [] →
      matchFrom behindLead
        (p2 ++ (("Your branch is behind 'origin/main' by 3 commits").data ++ suf.data)) =
        Option.none) :
    (∀ r, GitInfo.getChanges
        (pre ++ "Your branch is ahead of 'origin/main' by 3 commits" ++ suf) = some r →
      r.ahead = some "3") ∧
    (∀ r, GitInfo.getChanges
        (pre ++ "Your branch is behind 'origin/main' by 3 commits" ++ suf) = some r →
      r.behind = some "3") := by
  constructor
  · intro r hr
    unfold GitInfo.getChanges at hr
    rcases hsc : scan Mode.none ⟨Option.none, Option.none, Option.none⟩
        (splitNl (pre ++ "Your branch is ahead of 'origin/main' by 3 commits" ++ suf).data)
        with _ | st <;> simp only [hsc] at hr
    · cases hr
    · obtain rfl := (Option.some.inj hr).symm
      show searchA (pre ++ "Your branch is ahead of 'origin/main' by 3 commits" ++ suf).data
          = some "3"
      have edata : (pre ++ "Your branch is ahead of 'origin/main' by 3 commits" ++ suf).data
          = pre.data ++ (("Your branch is ahead of 'origin/main' by 3 commits").data ++ suf.data) := by
        rw [dataApp, dataApp, List.append_assoc]
      unfold searchA
      rw [edata, searchWith_skip_noMatch aheadLead pre.data
            (("Your branch is ahead of 'origin/main' by 3 commits").data ++ suf.data) hA,
          searchWith_target_ahead]
  · intro r hr
    unfold GitInfo.getChanges at hr
    rcases hsc : scan Mode.none ⟨Option.none, Option.none, Option.none⟩
        (splitNl (pre ++ "Your branch is behind 'origin/main' by 3 commits" ++ suf).data)
        with _ | st <;> simp only [hsc] at hr
    · cases hr
    · obtain rfl := (Option.some.inj hr).symm
      show searchB (pre ++ "Your branch is behind 'origin/main' by 3 commits" ++ suf).data
          = some "3"
      have edata : (pre ++ "Your branch is behind 'origin/main' by 3 commits" ++ suf).data
          = pre.data ++ (("Your branch is behind 'origin/main' by 3 commits").data ++ suf.data) := by
        rw [dataApp, dataApp, List.append_assoc]
      unfold searchB
      rw [edata, searchWith_skip_noMatch behindLead pre.data
            (("Your branch is behind 'origin/main' by 3 commits").data ++ suf.data) hB,
          searchWith_target_behind]

/-- Witness for claim C7 as amended, with a stray Y line before the sentence:
    no match of either pattern starts inside that prefix, and the extractor
    populates the category with the string 3. -/
theorem c7_amended_aheadBehind_witness :
    ((⟨Option.none, Option.none, Option.none, Option.none, some "3"⟩ : Changes).ahead
        = some "3") ∧
    ((⟨Option.none, Option.none, Option.none, some "3", Option.none⟩ : Changes).behind
        = some "3") :=
  ⟨(c7_amended_aheadBehind "Y!\n" ""
      (by
        intro p1 p2 h hne
        rcases splitThree 'Y' '!' '\n' p1 p2 (show ['Y', '!', '\n'] = p1 ++ p2 from h) hne
          with rfl | rfl | rfl
        · decide
        · decide
        · decide)
      (by
        intro p1 p2 h hne
        rcases splitThree 'Y' '!' '\n' p1 p2 (show ['Y', '!', '\n'] = p1 ++ p2 from h) hne
          with rfl | rfl | rfl
        · decide
        · decide
        · decide)).1
      ⟨Option.none, Option.none, Option.none, Option.none, some "3"⟩ (by decide),
   (c7_amended_aheadBehind "Y!\n" ""
      (by
        intro p1 p2 h hne
        rcases splitThree 'Y' '!' '\n' p1 p2 (show ['Y', '!', '\n'] = p1 ++ p2 from h) hne
          with rfl | rfl | rfl
        · decide
        · decide
        · decide)
      (by
        intro p1 p2 h hne
        rcases splitThree 'Y' '!' '\n' p1 p2 (show ['Y', '!', '\n'] = p1 ++ p2 from h) hne
          with rfl | rfl | rfl
        · decide
        · decide
        · decide)).2
      ⟨Option.none, Option.none, Option.none, some "3", Option.none⟩ (by decide)⟩
